import Mathlib

/-!
Verification of the profile-resolution pipeline of `generate_skewt.py`:
nearest-profile grid lookup, candidate-run selection, variable fetching with
humidity fallback, pressure sorting, and the derived-quantity stage.
Numeric arrays are embedded as lists of rationals; the external OGD data
source is a parameter (a function from run time and variable name to an
optional fetched column).
-/

namespace SkewT

/-- A vertical column of numeric values (one value per model level). -/
abbrev Col := List ℚ

/-! ## GridLocator: `get_nearest_profile` -/

/-- First-minimal-index scan, continuing a running best (numpy `argmin` keeps
the first occurrence of the minimum, so a later element replaces the best only
when strictly smaller). `i` is the index of the head of the remaining list. -/
def argminFrom : List ℚ → Nat → Nat → ℚ → Nat
  | [], _, bi, _ => bi
  | x :: xs, i, bi, bv =>
    if x < bv then argminFrom xs (i + 1) i x else argminFrom xs (i + 1) bi bv

/-- Index of the first minimal element of a list (`numpy.argmin`; 0 on `[]`,
which in the source raises and abandons the attempt). -/
def argmin : List ℚ → Nat
  | [] => 0
  | x :: xs => argminFrom xs 1 0 x

/-- The horizontal layout of a fetched field, as `get_nearest_profile`
distinguishes it via the dimensions of the latitude coordinate:
either one shared horizontal dimension (native ICON `ncells`, with parallel
per-cell lat/lon arrays and one column per cell), or a regular grid whose
latitude and longitude are separate 1-D axes, with `vals` holding, for each
latitude row, the list over longitudes of vertical columns (row-major). -/
inductive Field where
  | unstructured (lats lons : List ℚ) (cols : List Col)
  | regular (lats lons : List ℚ) (vals : List (List Col))
deriving DecidableEq

/-- Result of extraction after `.squeeze()`: a true 1-D column, or a slab that
still carries a longitude dimension (when the regular path selects a whole
latitude row with more than one longitude). -/
inductive Extract where
  | column (c : Col)
  | slab (s : List Col)
deriving DecidableEq

/-- Squeeze of a latitude row of columns: a singleton longitude dimension is
dropped, otherwise the 2-D slab remains. -/
def squeezeRow : List Col → Extract
  | [c] => .column c
  | s => .slab s

/-- Squared-distance field between the target and every horizontal point.
For the regular layout the two 1-D coordinate axes broadcast to a 2-D
(lat, lon) array, listed here row-major as xarray flattens it. -/
def distList (lats lons : List ℚ) (latT lonT : ℚ) : List ℚ :=
  List.zipWith (fun a b => (a - latT) ^ 2 + (b - lonT) ^ 2) lats lons

/-- Broadcast squared-distance rows for the regular layout. -/
def distGrid (lats lons : List ℚ) (latT lonT : ℚ) : List (List ℚ) :=
  lats.map fun a => lons.map fun b => (a - latT) ^ 2 + (b - lonT) ^ 2

/-- Embedding of `get_nearest_profile(ds, lat_target, lon_target)`.
`none` models both a `None` input and an exception escaping the call
(an out-of-range `isel`). On the unstructured layout the latitude coordinate
has the single horizontal dimension, so the flat argmin of the 1-D distance
indexes the cell dimension. On the regular layout the latitude coordinate is
still 1-D, so the source also takes the `len(horiz_dims) == 1` branch and uses
the flat argmin of the broadcast 2-D distance as an index into the latitude
axis alone, keeping the whole longitude dimension. -/
def get_nearest_profile (fld : Option Field) (latT lonT : ℚ) : Option Extract :=
  match fld with
  | none => none
  | some (.unstructured lats lons cols) =>
    let flatIdx := argmin (distList lats lons latT lonT)
    (cols.get? flatIdx).map .column
  | some (.regular lats lons vals) =>
    let flatIdx := argmin (distGrid lats lons latT lonT).flatten
    match vals.get? flatIdx with
    | none => none
    | some row => some (squeezeRow row)

/-- Spec-side brute force: `i` is the first index minimizing the distance list
(minimal among all entries, and strictly below every earlier entry). -/
def IsBruteMin (ds : List ℚ) (i : Nat) : Prop :=
  i < ds.length ∧ (∀ j, j < ds.length → ds.getD i 0 ≤ ds.getD j 0) ∧
    ∀ j, j < i → ds.getD i 0 < ds.getD j 0

instance (ds : List ℚ) (i : Nat) : Decidable (IsBruteMin ds i) := by
  unfold IsBruteMin; infer_instance

/-! ## Size floor -/

/-- Acceptance test applied to every fetched column: the source raises
`Empty {var}` when `res is None or res.size < 5`, and accepts a humidity
candidate when `res_h is not None and res_h.size >= 5`. -/
def passesSizeFloor (res : Option Col) : Bool :=
  match res with
  | none => false
  | some xs => 5 ≤ xs.length

/-! ## The working dictionary `profile_data`

The script keeps a single Python dict, created once before the candidate-run
loop and mutated in place by every attempt. Insertion overwrites, and lookup
returns the most recent binding, which the cons-plus-first-match association
list below reproduces. The string-valued `HUM_TYPE` key is modelled as the
separate `humType` field. -/

/-- Association list with newest binding first (`profile_data[k] = v`). -/
abbrev Dict := List (String × Col)

/-- `profile_data[k] = v`: a fresh binding shadows any older one. -/
def dictInsert (d : Dict) (k : String) (v : Col) : Dict := (k, v) :: d

/-- `profile_data.get(k)`: the most recent binding for `k`, if any. -/
def dictLookup : Dict → String → Option Col
  | [], _ => none
  | (k', v) :: d, k => if k = k' then some v else dictLookup d k

/-- The state of `profile_data` (arrays plus the `HUM_TYPE` tag). -/
structure ProfileData where
  entries : Dict
  humType : Option String
deriving DecidableEq

/-- The four unconditionally required variables, in fetch order. -/
def CORE_VARS : List String := ["T", "U", "V", "P"]

/-- The ordered humidity fallback names (relative humidity first). -/
def humNames : List String := ["RELHUM", "QV"]

/-! ## Fetch stages of one candidate attempt

An external fetch for one run is a function from variable name to an optional
column; `none` covers both a `None` response and an exception escaping
`get_from_ogd`/`get_nearest_profile`, which the per-run `try` treats alike. -/

/-- The core loop `for var in CORE_VARS`: each fetched column passing the size
floor is written into the dict; the first failure raises `Empty {var}` with the
mutations already made left in place. Returns the dict after the loop together
with the raised message, if any. -/
def fetchCoreVars (f : String → Option Col) : List String → Dict → Dict × Option String
  | [], d => (d, none)
  | v :: rest, d =>
    match f v with
    | some res =>
      if 5 ≤ res.length then fetchCoreVars f rest (dictInsert d v res)
      else (d, some ("Empty " ++ v))
    | none => (d, some ("Empty " ++ v))

/-- The humidity loop `for hum_var in ["RELHUM", "QV"]`: the first candidate
name whose fetch returns a column meeting the size floor is accepted together
with its name; a failed or undersized fetch falls through to the next name
(`except: continue`); exhaustion returns nothing. -/
def fetchHumidity (f : String → Option Col) : List String → Option (Col × String)
  | [] => none
  | n :: rest =>
    match f n with
    | some res =>
      if 5 ≤ res.length then some (res, n) else fetchHumidity f rest
    | none => fetchHumidity f rest

/-- One candidate attempt (the body of the `for ref_time` loop): fetch the
core variables, then humidity, then check `"HUM" not in profile_data`.
Returns the dict as left by the attempt and `some msg` exactly when the
attempt raised (and was caught by the per-run `except`). On humidity success
both `HUM` and `HUM_TYPE` are written. Note the membership check is made
against the shared dict, so a `HUM` entry already present would satisfy it. -/
def attemptRun (f : String → Option Col) (pd : ProfileData) : ProfileData × Option String :=
  match fetchCoreVars f CORE_VARS pd.entries with
  | (e1, some msg) => (⟨e1, pd.humType⟩, some msg)
  | (e1, none) =>
    match fetchHumidity f humNames with
    | some (res, hv) => (⟨dictInsert e1 "HUM" res, some hv⟩, none)
    | none =>
      match dictLookup e1 "HUM" with
      | none => (⟨e1, pd.humType⟩, some "No Humidity")
      | some _ => (⟨e1, pd.humType⟩, none)

/-- A model reference time, in hours (the script uses UTC datetimes stepped in
3-hour increments; only their order matters here). -/
abbrev RunTime := ℤ

/-- `times_to_try = [latest_run - datetime.timedelta(hours=i*3) for i in range(4)]`. -/
def timesToTry (latestRun : RunTime) : List RunTime :=
  (List.range 4).map fun i => latestRun - 3 * (i : ℤ)

/-- Trace of the candidate-run loop: the successful dict and winning reference
time if any, the `Run incomplete` diagnostics printed for failed attempts in
order, every reference time attempted in order, and the final state of the
shared dict when the loop ends. -/
structure LoopResult where
  outcome : Option (ProfileData × RunTime)
  failures : List (RunTime × String)
  attempted : List RunTime
  final : ProfileData
deriving DecidableEq

/-- The candidate-run loop `for ref_time in times_to_try`: attempts run one at
a time against the shared dict; the first success breaks with that run's dict
and reference time; a failure logs one `Run incomplete` entry and passes the
mutated dict on to the next candidate. -/
def runLoop (f : RunTime → String → Option Col) : List RunTime → ProfileData → LoopResult
  | [], pd => ⟨none, [], [], pd⟩
  | t :: rest, pd =>
    match attemptRun (f t) pd with
    | (pd2, none) => ⟨some (pd2, t), [], [t], pd2⟩
    | (pd2, some msg) =>
      let r := runLoop f rest pd2
      ⟨r.outcome, (t, msg) :: r.failures, t :: r.attempted, r.final⟩

/-- The selection stage of `main`: the loop starts from an empty dict; if no
candidate succeeds the only fatal outcome is reported, carrying the failure
diagnostics accumulated one per attempted candidate. -/
def mainSelect (f : RunTime → String → Option Col) (cs : List RunTime) :
    Except (List (RunTime × String)) (ProfileData × RunTime) :=
  match (runLoop f cs ⟨[], none⟩).outcome with
  | some r => .ok r
  | none => .error (runLoop f cs ⟨[], none⟩).failures

/-- Whether one attempt succeeds, as a function of the fetch alone (used to
state loop theorems; on the reachable states of the shared dict this
characterizes `attemptRun` exactly, see `attemptRun_snd_eq_none_iff`). -/
def attemptOK (f : String → Option Col) : Bool :=
  (fetchCoreVars f CORE_VARS []).2.isNone && (fetchHumidity f humNames).isSome

/-! ## Derived quantities

`metpy.calc` operates elementwise on the arrays, so its formulas are embedded
as per-element functions applied with `zipWith`. The dewpoint formulas
themselves involve logarithms, which ℚ cannot carry, so they stay parameters:
everything the source decides — which formula runs, the percent
normalization, the km/h conversion, the sorting — is explicit. -/

/-- Elementwise application of a ternary vectorized function. -/
def zipWith3 (g : ℚ → ℚ → ℚ → ℚ) : List ℚ → List ℚ → List ℚ → List ℚ
  | a :: as', b :: bs, c :: cs => g a b c :: zipWith3 g as' bs cs
  | _, _, _ => []

/-- The dewpoint branch of `main`: with tag `RELHUM` the humidity values are
first divided by 100 and `dewpoint_from_relative_humidity(t, hum/100)` runs;
with any other tag `dewpoint_from_specific_humidity(p, t, hum)` runs. -/
def computeDewpoint (dewRH : ℚ → ℚ → ℚ) (dewQ : ℚ → ℚ → ℚ → ℚ)
    (humTag : String) (p t hum : List ℚ) : List ℚ :=
  if humTag = "RELHUM" then List.zipWith dewRH t (hum.map (· / 100))
  else zipWith3 dewQ p t hum

/-- `mpcalc.wind_speed(u, v).to(units('km/h'))`: the elementwise magnitude
(a parameter, since it needs a square root) converted from m/s to km/h by the
fixed factor 3.6 = 18/5. -/
def windSpeedKmh (mag : ℚ → ℚ → ℚ) (u v : List ℚ) : List ℚ :=
  (List.zipWith mag u v).map (· * (18 / 5))

/-! ## Pressure sorting: `inds = p.argsort()[::-1]` -/

/-- `p.argsort()`: the indices `0 .. len p - 1` sorted so that the pressures
they select are ascending (a stable sort of the index list by value). -/
def argsortAsc (p : List ℚ) : List Nat :=
  List.insertionSort (fun i j => p.getD i 0 ≤ p.getD j 0) (List.range p.length)

/-- `p.argsort()[::-1]`: the descending-pressure index permutation. -/
def sortIndices (p : List ℚ) : List Nat := (argsortAsc p).reverse

/-- Fancy indexing `xs[inds]`. -/
def applyPerm (is : List Nat) (xs : List ℚ) : List ℚ :=
  is.map fun i => xs.getD i 0

/-- The six arrays reindexed in line 105 of the source, after sorting. -/
structure SortedArrays where
  p : List ℚ
  t : List ℚ
  td : List ℚ
  u : List ℚ
  v : List ℚ
  ws : List ℚ
deriving DecidableEq

/-- `p, t, td, u, v, wind_speed = p[inds], t[inds], ...`: one permutation,
computed from pressure alone, applied to every co-array. -/
def sortByPressure (p t td u v ws : List ℚ) : SortedArrays :=
  let is := sortIndices p
  ⟨applyPerm is p, applyPerm is t, applyPerm is td,
   applyPerm is u, applyPerm is v, applyPerm is ws⟩

/-- Output of the derived-quantity stage (lines 91–105 of the source). -/
structure Derived where
  td : List ℚ
  windSpeed : List ℚ
  sorted : SortedArrays
deriving DecidableEq

/-- The derived-quantity stage: read the assembled arrays and the humidity
tag from `profile_data`, compute wind speed and dewpoint, and jointly sort all
arrays by descending pressure. The stage performs no validation of physical
ranges: whenever the required keys are present it computes, whatever the
values. `none` only models the impossible missing-key access. -/
def deriveStage (dewRH : ℚ → ℚ → ℚ) (dewQ : ℚ → ℚ → ℚ → ℚ) (mag : ℚ → ℚ → ℚ)
    (pd : ProfileData) : Option Derived :=
  match dictLookup pd.entries "P", dictLookup pd.entries "T",
      dictLookup pd.entries "U", dictLookup pd.entries "V",
      dictLookup pd.entries "HUM", pd.humType with
  | some p, some t, some u, some v, some hum, some tag =>
    let ws := windSpeedKmh mag u v
    let td := computeDewpoint dewRH dewQ tag p t hum
    some ⟨td, ws, sortByPressure p t td u v ws⟩
  | _, _, _, _, _, _ => none

/-- Standard gravity, m/s². -/
def g0 : ℚ := 980665 / 100000

/-- Modelled from the spec: the height rule of the consolidated
DerivedQuantityCalculator — "geopotential divided by standard gravity
(9.80665 m/s²), when a geopotential field is present; optional output".
The single variant under `src` never fetches a geopotential variable and
computes no height, so this rule is absent from `src` and is taken from the
spec's words: elementwise division of the optional geopotential column by
`g0`, omitted when the field is absent. -/
def heightFromGeopotential (fi : Option Col) : Option Col :=
  match fi with
  | none => none
  | some xs => some (xs.map (· / g0))

/-! ## Auxiliary predicates and concrete fixtures used by the theorems -/

/-- A humidity candidate fetch that does not meet the acceptance test:
nothing was returned, or the returned column is below the size floor. -/
def humFail (r : Option Col) : Prop := r = none ∨ ∃ c, r = some c ∧ c.length < 5

/-- The `Run incomplete` diagnostic an attempt with fetch `f` produces
(well-defined because the message does not depend on the shared dict as long
as no `HUM` entry is present, see `attemptRun_snd_of_no_hum`). -/
def failMsg (f : String → Option Col) : String :=
  ((attemptRun f ⟨[], none⟩).2).getD ""

/-- Fixture: run 0 delivers only a valid temperature column and nothing else;
every other run delivers nothing at all. -/
def leakFetch : RunTime → String → Option Col :=
  fun t v => if t = 0 ∧ v = "T" then some [1, 2, 3, 4, 5] else none

/-- Fixture: every fetch succeeds with the same 5-level column. -/
def allOkFetch : RunTime → String → Option Col :=
  fun _ _ => some [1, 2, 3, 4, 5]

/-- Fixture: an assembled profile whose pressures and temperatures are all
negative absolute values — physically invalid inputs. -/
def invalidProfile : ProfileData :=
  ⟨[("P", [-100000, -90000, -80000, -70000, -60000]),
    ("T", [-5, -4, -3, -2, -1]),
    ("U", [1, 1, 1, 1, 1]),
    ("V", [2, 2, 2, 2, 2]),
    ("HUM", [50, 50, 50, 50, 50])], some "RELHUM"⟩

/-- Fixture stand-in for `dewpoint_from_relative_humidity` (any elementwise
function works for the structural statements). -/
def dewRHtest : ℚ → ℚ → ℚ := fun t h => t + h

/-- Fixture stand-in for `dewpoint_from_specific_humidity`. -/
def dewQtest : ℚ → ℚ → ℚ → ℚ := fun p t q => p + t + q

/-- Fixture stand-in for the elementwise wind magnitude. -/
def magTest : ℚ → ℚ → ℚ := fun a b => a + b

/-- Fixture: a regular grid with latitude axis `[0, 10]`, longitude axis
`[0, 10, 20]`, and one-point marker columns `[10*i + j]` at row `i`,
column `j`, so every horizontal point is identifiable. -/
def regDemoField : Field :=
  .regular [0, 10] [0, 10, 20] [[[0], [1], [2]], [[10], [11], [12]]]

/-- Fixture: the same six points as `regDemoField` laid out as an
unstructured cell list. -/
def icoDemoField : Field :=
  .unstructured [0, 0, 0, 10, 10, 10] [0, 10, 20, 0, 10, 20]
    [[0], [1], [2], [10], [11], [12]]

/-- Fixture: the relative-humidity name returns an undersized column while
the specific-humidity name returns a valid one. -/
def c3fetch : String → Option Col :=
  fun v =>
    if v = "RELHUM" then some [1, 2, 3]
    else if v = "QV" then some [1, 2, 3, 4, 5] else none

/-- Fixture: only the third candidate run (reference time `-6`) is complete. -/
def c4fetch : RunTime → String → Option Col :=
  fun t _ => if t = -6 then some [1, 2, 3, 4, 5] else none

/-- The dict `allOkFetch` assembles for any single run (core variables written
in fetch order, then the humidity entry, tagged with the first fallback
name). -/
def allOkDict : ProfileData :=
  ⟨[("HUM", [1, 2, 3, 4, 5]), ("P", [1, 2, 3, 4, 5]), ("V", [1, 2, 3, 4, 5]),
    ("U", [1, 2, 3, 4, 5]), ("T", [1, 2, 3, 4, 5])], some "RELHUM"⟩

/-! ## Equation lemmas for the fetch stages -/

theorem fetchCoreVars_cons_ok (f : String → Option Col) (v : String)
    (rest : List String) (d : Dict) (res : Col) (hf : f v = some res)
    (hlen : 5 ≤ res.length) :
    fetchCoreVars f (v :: rest) d = fetchCoreVars f rest (dictInsert d v res) := by
  simp only [fetchCoreVars, hf]; rw [if_pos hlen]

theorem fetchCoreVars_cons_small (f : String → Option Col) (v : String)
    (rest : List String) (d : Dict) (res : Col) (hf : f v = some res)
    (hlen : ¬ 5 ≤ res.length) :
    fetchCoreVars f (v :: rest) d = (d, some ("Empty " ++ v)) := by
  simp only [fetchCoreVars, hf]; rw [if_neg hlen]

theorem fetchCoreVars_cons_none (f : String → Option Col) (v : String)
    (rest : List String) (d : Dict) (hf : f v = none) :
    fetchCoreVars f (v :: rest) d = (d, some ("Empty " ++ v)) := by
  simp only [fetchCoreVars, hf]

theorem fetchHumidity_cons_ok (f : String → Option Col) (n : String)
    (rest : List String) (res : Col) (hf : f n = some res)
    (hlen : 5 ≤ res.length) :
    fetchHumidity f (n :: rest) = some (res, n) := by
  simp only [fetchHumidity, hf]; rw [if_pos hlen]

theorem fetchHumidity_cons_small (f : String → Option Col) (n : String)
    (rest : List String) (res : Col) (hf : f n = some res)
    (hlen : ¬ 5 ≤ res.length) :
    fetchHumidity f (n :: rest) = fetchHumidity f rest := by
  simp only [fetchHumidity, hf]; rw [if_neg hlen]

theorem fetchHumidity_cons_none (f : String → Option Col) (n : String)
    (rest : List String) (hf : f n = none) :
    fetchHumidity f (n :: rest) = fetchHumidity f rest := by
  simp only [fetchHumidity, hf]

theorem attemptRun_eq_core_fail (f : String → Option Col) (pd : ProfileData)
    (e1 : Dict) (msg : String)
    (h : fetchCoreVars f CORE_VARS pd.entries = (e1, some msg)) :
    attemptRun f pd = (⟨e1, pd.humType⟩, some msg) := by
  simp only [attemptRun, h]

theorem attemptRun_eq_hum_ok (f : String → Option Col) (pd : ProfileData)
    (e1 : Dict) (res : Col) (hv : String)
    (h : fetchCoreVars f CORE_VARS pd.entries = (e1, none))
    (hh : fetchHumidity f humNames = some (res, hv)) :
    attemptRun f pd = (⟨dictInsert e1 "HUM" res, some hv⟩, none) := by
  simp only [attemptRun, h, hh]

theorem attemptRun_eq_no_hum (f : String → Option Col) (pd : ProfileData)
    (e1 : Dict) (h : fetchCoreVars f CORE_VARS pd.entries = (e1, none))
    (hh : fetchHumidity f humNames = none)
    (hl : dictLookup e1 "HUM" = none) :
    attemptRun f pd = (⟨e1, pd.humType⟩, some "No Humidity") := by
  simp only [attemptRun, h, hh, hl]

theorem attemptRun_eq_stale_hum (f : String → Option Col) (pd : ProfileData)
    (e1 : Dict) (c : Col) (h : fetchCoreVars f CORE_VARS pd.entries = (e1, none))
    (hh : fetchHumidity f humNames = none)
    (hl : dictLookup e1 "HUM" = some c) :
    attemptRun f pd = (⟨e1, pd.humType⟩, none) := by
  simp only [attemptRun, h, hh, hl]

/-! ## Lemmas about the fetch loops and the shared dictionary -/

/-- The core loop only writes the keys it was asked to fetch. -/
theorem fetchCoreVars_lookup_not_mem (f : String → Option Col) :
    ∀ (vs : List String) (d : Dict) (k : String), k ∉ vs →
      dictLookup (fetchCoreVars f vs d).1 k = dictLookup d k := by
  intro vs
  induction vs with
  | nil => intro d k _; rfl
  | cons v rest ih =>
    intro d k hk
    have hkv : k ≠ v := fun h => hk (h ▸ List.mem_cons_self v rest)
    have hkrest : k ∉ rest := fun h => hk (List.mem_cons_of_mem v h)
    cases hf : f v with
    | none => rw [fetchCoreVars_cons_none f v rest d hf]
    | some res =>
      by_cases hlen : 5 ≤ res.length
      · rw [fetchCoreVars_cons_ok f v rest d res hf hlen,
          ih (dictInsert d v res) k hkrest]
        simp [dictInsert, dictLookup, hkv]
      · rw [fetchCoreVars_cons_small f v rest d res hf hlen]

/-- Whether the core loop raises, and with which message, does not depend on
the state of the dict it writes into. -/
theorem fetchCoreVars_snd_indep (f : String → Option Col) :
    ∀ (vs : List String) (d d' : Dict),
      (fetchCoreVars f vs d).2 = (fetchCoreVars f vs d').2 := by
  intro vs
  induction vs with
  | nil => intro d d'; rfl
  | cons v rest ih =>
    intro d d'
    cases hf : f v with
    | none => rw [fetchCoreVars_cons_none f v rest d hf,
        fetchCoreVars_cons_none f v rest d' hf]
    | some res =>
      by_cases hlen : 5 ≤ res.length
      · rw [fetchCoreVars_cons_ok f v rest d res hf hlen,
          fetchCoreVars_cons_ok f v rest d' res hf hlen]
        exact ih _ _
      · rw [fetchCoreVars_cons_small f v rest d res hf hlen,
          fetchCoreVars_cons_small f v rest d' res hf hlen]

/-- When the core loop completes, every requested variable was fetched with a
column meeting the size floor, and (given distinct names) the final dict binds
each name to its fetched column. -/
theorem fetchCoreVars_success_lookup (f : String → Option Col) :
    ∀ (vs : List String) (d : Dict), vs.Nodup →
      (fetchCoreVars f vs d).2 = none →
      ∀ v ∈ vs, ∃ c, f v = some c ∧ 5 ≤ c.length ∧
        dictLookup (fetchCoreVars f vs d).1 v = some c := by
  intro vs
  induction vs with
  | nil => intro d _ _ v hv; exact absurd hv (List.not_mem_nil v)
  | cons v0 rest ih =>
    intro d hnd hok v hv
    have hnd' := List.nodup_cons.mp hnd
    cases hf : f v0 with
    | none =>
      rw [fetchCoreVars_cons_none f v0 rest d hf] at hok
      exact absurd hok (by simp)
    | some res =>
      by_cases hlen : 5 ≤ res.length
      · rw [fetchCoreVars_cons_ok f v0 rest d res hf hlen] at hok ⊢
        rcases List.mem_cons.mp hv with hv0 | hvrest
        · subst hv0
          refine ⟨res, hf, hlen, ?_⟩
          rw [fetchCoreVars_lookup_not_mem f rest (dictInsert d v res) v hnd'.1]
          simp [dictInsert, dictLookup]
        · exact ih (dictInsert d v0 res) hnd'.2 hok v hvrest
      · rw [fetchCoreVars_cons_small f v0 rest d res hf hlen] at hok
        exact absurd hok (by simp)

/-- `"HUM"` is not a core variable name. -/
theorem hum_not_core : "HUM" ∉ CORE_VARS := by decide

/-- Under the reachable-state invariant (no `HUM` entry yet), an attempt
succeeds exactly when `attemptOK` holds of its fetch. -/
theorem attemptRun_snd_eq_none_iff (f : String → Option Col) (pd : ProfileData)
    (hinv : dictLookup pd.entries "HUM" = none) :
    (attemptRun f pd).2 = none ↔ attemptOK f = true := by
  rcases hcore : fetchCoreVars f CORE_VARS pd.entries with ⟨e1, err⟩
  have hsnd : (fetchCoreVars f CORE_VARS []).2 = err := by
    rw [fetchCoreVars_snd_indep f CORE_VARS [] pd.entries, hcore]
  cases err with
  | some msg =>
    rw [attemptRun_eq_core_fail f pd e1 msg hcore]
    simp [attemptOK, hsnd]
  | none =>
    have he1 : dictLookup e1 "HUM" = none := by
      have := fetchCoreVars_lookup_not_mem f CORE_VARS pd.entries "HUM" hum_not_core
      rw [hcore] at this
      exact this.trans hinv
    cases hh : fetchHumidity f humNames with
    | some rh =>
      obtain ⟨res, hv⟩ := rh
      rw [attemptRun_eq_hum_ok f pd e1 res hv hcore hh]
      simp [attemptOK, hsnd, hh]
    | none =>
      rw [attemptRun_eq_no_hum f pd e1 hcore hh he1]
      simp [attemptOK, hsnd, hh]

/-- A failed attempt leaves the `HUM` key exactly as it found it. -/
theorem attemptRun_fail_no_hum (f : String → Option Col) (pd : ProfileData)
    (pd2 : ProfileData) (msg : String)
    (h : attemptRun f pd = (pd2, some msg)) :
    dictLookup pd2.entries "HUM" = dictLookup pd.entries "HUM" := by
  rcases hcore : fetchCoreVars f CORE_VARS pd.entries with ⟨e1, err⟩
  have he1 : dictLookup e1 "HUM" = dictLookup pd.entries "HUM" := by
    have := fetchCoreVars_lookup_not_mem f CORE_VARS pd.entries "HUM" hum_not_core
    rw [hcore] at this; exact this
  cases err with
  | some m =>
    rw [attemptRun_eq_core_fail f pd e1 m hcore] at h
    rw [Prod.mk.injEq] at h
    rw [← h.1]
    exact he1
  | none =>
    cases hh : fetchHumidity f humNames with
    | some rh =>
      obtain ⟨res, hv⟩ := rh
      rw [attemptRun_eq_hum_ok f pd e1 res hv hcore hh] at h
      rw [Prod.mk.injEq] at h
      exact absurd h.2 (by simp)
    | none =>
      cases hl : dictLookup e1 "HUM" with
      | none =>
        rw [attemptRun_eq_no_hum f pd e1 hcore hh hl] at h
        rw [Prod.mk.injEq] at h
        rw [← h.1]
        exact he1
      | some c =>
        rw [attemptRun_eq_stale_hum f pd e1 c hcore hh hl] at h
        rw [Prod.mk.injEq] at h
        exact absurd h.2 (by simp)

/-- The raised message of an attempt depends only on the fetch, as long as no
`HUM` entry is present in the shared dict. -/
theorem attemptRun_snd_of_no_hum (f : String → Option Col) (pd : ProfileData)
    (hinv : dictLookup pd.entries "HUM" = none) :
    (attemptRun f pd).2 = (attemptRun f ⟨[], none⟩).2 := by
  rcases hcore : fetchCoreVars f CORE_VARS pd.entries with ⟨e1, err⟩
  rcases hcore0 : fetchCoreVars f CORE_VARS ([] : Dict) with ⟨e0, err0⟩
  have hsame : err = err0 := by
    have := fetchCoreVars_snd_indep f CORE_VARS pd.entries []
    rw [hcore, hcore0] at this; exact this
  subst hsame
  have he1 : dictLookup e1 "HUM" = none := by
    have := fetchCoreVars_lookup_not_mem f CORE_VARS pd.entries "HUM" hum_not_core
    rw [hcore] at this; exact this.trans hinv
  have he0 : dictLookup e0 "HUM" = none := by
    have := fetchCoreVars_lookup_not_mem f CORE_VARS ([] : Dict) "HUM" hum_not_core
    rw [hcore0] at this; exact this
  cases err with
  | some m =>
    rw [attemptRun_eq_core_fail f pd e1 m hcore,
      attemptRun_eq_core_fail f ⟨[], none⟩ e0 m hcore0]
  | none =>
    cases hh : fetchHumidity f humNames with
    | some rh =>
      obtain ⟨res, hv⟩ := rh
      rw [attemptRun_eq_hum_ok f pd e1 res hv hcore hh,
        attemptRun_eq_hum_ok f ⟨[], none⟩ e0 res hv hcore0 hh]
    | none =>
      rw [attemptRun_eq_no_hum f pd e1 hcore hh he1,
        attemptRun_eq_no_hum f ⟨[], none⟩ e0 hcore0 hh he0]

/-- A successful attempt from a reachable state decomposes as: all core
fetches passed and were written, humidity fallback succeeded, and the result
dict is the core dict plus the fresh `HUM` entry and tag. -/
theorem attemptRun_success_shape (f : String → Option Col) (pd : ProfileData)
    (pd2 : ProfileData) (hinv : dictLookup pd.entries "HUM" = none)
    (h : attemptRun f pd = (pd2, none)) :
    ∃ e1 res hv, fetchCoreVars f CORE_VARS pd.entries = (e1, none) ∧
      fetchHumidity f humNames = some (res, hv) ∧
      pd2 = ⟨dictInsert e1 "HUM" res, some hv⟩ := by
  rcases hcore : fetchCoreVars f CORE_VARS pd.entries with ⟨e1, err⟩
  cases err with
  | some m =>
    rw [attemptRun_eq_core_fail f pd e1 m hcore] at h
    rw [Prod.mk.injEq] at h
    exact absurd h.2 (by simp)
  | none =>
    cases hh : fetchHumidity f humNames with
    | some rh =>
      obtain ⟨res, hv⟩ := rh
      rw [attemptRun_eq_hum_ok f pd e1 res hv hcore hh] at h
      rw [Prod.mk.injEq] at h
      exact ⟨e1, res, hv, rfl, rfl, h.1.symm⟩
    | none =>
      have he1 : dictLookup e1 "HUM" = none := by
        have := fetchCoreVars_lookup_not_mem f CORE_VARS pd.entries "HUM" hum_not_core
        rw [hcore] at this; exact this.trans hinv
      rw [attemptRun_eq_no_hum f pd e1 hcore hh he1] at h
      rw [Prod.mk.injEq] at h
      exact absurd h.2 (by simp)

/-! ## Lemmas about the candidate-run loop -/

theorem runLoop_cons_ok (f : RunTime → String → Option Col) (t : RunTime)
    (rest : List RunTime) (pd pd2 : ProfileData)
    (h : attemptRun (f t) pd = (pd2, none)) :
    runLoop f (t :: rest) pd = ⟨some (pd2, t), [], [t], pd2⟩ := by
  simp only [runLoop, h]

theorem runLoop_cons_fail (f : RunTime → String → Option Col) (t : RunTime)
    (rest : List RunTime) (pd pd2 : ProfileData) (msg : String)
    (h : attemptRun (f t) pd = (pd2, some msg)) :
    runLoop f (t :: rest) pd =
      ⟨(runLoop f rest pd2).outcome, (t, msg) :: (runLoop f rest pd2).failures,
       t :: (runLoop f rest pd2).attempted, (runLoop f rest pd2).final⟩ := by
  simp only [runLoop, h]

/-- A failing attempt from a reachable state, packaged: the attempt raises the
message `failMsg` determines, and the dict it leaves behind still has no
`HUM` entry. -/
theorem attempt_fail_package (f : String → Option Col) (pd : ProfileData)
    (hinv : dictLookup pd.entries "HUM" = none)
    (hko : attemptOK f = false) :
    ∃ pd2, attemptRun f pd = (pd2, some (failMsg f)) ∧
      dictLookup pd2.entries "HUM" = none := by
  rcases hA : attemptRun f pd with ⟨pd2, err⟩
  cases err with
  | none =>
    have : attemptOK f = true := by
      rw [← attemptRun_snd_eq_none_iff f pd hinv, hA]
    rw [this] at hko
    exact absurd hko (by simp)
  | some msg =>
    have hmsg : failMsg f = msg := by
      have h2 := attemptRun_snd_of_no_hum f pd hinv
      rw [hA] at h2
      unfold failMsg
      rw [← h2]
      rfl
    have hinv2 : dictLookup pd2.entries "HUM" = none := by
      rw [attemptRun_fail_no_hum f pd pd2 msg hA]
      exact hinv
    refine ⟨pd2, ?_, hinv2⟩
    rw [hmsg]

/-- Exhaustion: when every candidate's fetch fails the attempt test, the loop
reaches no outcome, logs one `Run incomplete` diagnostic per candidate in
order, and attempts every candidate exactly once. -/
theorem runLoop_all_fail (f : RunTime → String → Option Col) :
    ∀ (cs : List RunTime) (pd : ProfileData),
      dictLookup pd.entries "HUM" = none →
      (∀ c ∈ cs, attemptOK (f c) = false) →
      (runLoop f cs pd).outcome = none ∧
      (runLoop f cs pd).failures = cs.map (fun c => (c, failMsg (f c))) ∧
      (runLoop f cs pd).attempted = cs := by
  intro cs
  induction cs with
  | nil => intro pd _ _; exact ⟨rfl, rfl, rfl⟩
  | cons t rest ih =>
    intro pd hinv hall
    obtain ⟨pd2, hA, hinv2⟩ := attempt_fail_package (f t) pd hinv
      (hall t (List.mem_cons_self t rest))
    rw [runLoop_cons_fail f t rest pd pd2 (failMsg (f t)) hA]
    obtain ⟨h1, h2, h3⟩ := ih pd2 hinv2
      (fun c hc => hall c (List.mem_cons_of_mem t hc))
    exact ⟨h1, by rw [List.map_cons, h2], by rw [h3]⟩

/-- First success: if the attempt test fails for the first `k` candidates and
holds at index `k`, the loop succeeds with the `k`-th candidate's reference
time, attempts exactly the first `k + 1` candidates, and logged `k` failures. -/
theorem runLoop_first_success (f : RunTime → String → Option Col) :
    ∀ (cs : List RunTime) (pd : ProfileData) (k : Nat),
      dictLookup pd.entries "HUM" = none →
      k < cs.length →
      (∀ i, i < k → attemptOK (f (cs.getD i 0)) = false) →
      attemptOK (f (cs.getD k 0)) = true →
      (∃ pdw, (runLoop f cs pd).outcome = some (pdw, cs.getD k 0)) ∧
      (runLoop f cs pd).attempted = cs.take (k + 1) ∧
      (runLoop f cs pd).failures.length = k := by
  intro cs
  induction cs with
  | nil => intro pd k _ hk; exact absurd hk (by simp)
  | cons t rest ih =>
    intro pd k hinv hk hfail hok
    cases k with
    | zero =>
      have hok0 : attemptOK (f t) = true := hok
      rcases hA : attemptRun (f t) pd with ⟨pd2, err⟩
      cases err with
      | some msg =>
        have : (attemptRun (f t) pd).2 = none := by
          rw [attemptRun_snd_eq_none_iff (f t) pd hinv]; exact hok0
        rw [hA] at this
        exact absurd this (by simp)
      | none =>
        rw [runLoop_cons_ok f t rest pd pd2 hA]
        exact ⟨⟨pd2, rfl⟩, rfl, rfl⟩
    | succ k' =>
      have h0 : attemptOK (f t) = false := hfail 0 (Nat.succ_pos k')
      obtain ⟨pd2, hA, hinv2⟩ := attempt_fail_package (f t) pd hinv h0
      rw [runLoop_cons_fail f t rest pd pd2 (failMsg (f t)) hA]
      have hk' : k' < rest.length := by
        simpa [Nat.succ_lt_succ_iff] using hk
      have hfail' : ∀ i, i < k' → attemptOK (f (rest.getD i 0)) = false := by
        intro i hi
        have := hfail (i + 1) (Nat.succ_lt_succ hi)
        simpa using this
      have hok' : attemptOK (f (rest.getD k' 0)) = true := by
        simpa using hok
      obtain ⟨⟨pdw, h1⟩, h2, h3⟩ := ih pd2 k' hinv2 hk' hfail' hok'
      refine ⟨⟨pdw, ?_⟩, ?_, ?_⟩
      · simpa using h1
      · simp only [List.take_succ_cons]
        rw [h2]
      · simp only [List.length_cons, h3]

/-- Provenance of a successful outcome: the winning dict was assembled
entirely within the winning candidate's attempt — every core variable is
bound to a column that very fetch returned, and the humidity entry and tag
are the ones the fallback of that attempt produced. -/
theorem runLoop_success_provenance (f : RunTime → String → Option Col) :
    ∀ (cs : List RunTime) (pd : ProfileData),
      dictLookup pd.entries "HUM" = none →
      ∀ (pdw : ProfileData) (t : RunTime),
        (runLoop f cs pd).outcome = some (pdw, t) →
        t ∈ cs ∧
        (∀ v ∈ CORE_VARS, ∃ c, f t v = some c ∧ 5 ≤ c.length ∧
          dictLookup pdw.entries v = some c) ∧
        ∃ res hv, fetchHumidity (f t) humNames = some (res, hv) ∧
          dictLookup pdw.entries "HUM" = some res ∧ pdw.humType = some hv := by
  intro cs
  induction cs with
  | nil => intro pd _ pdw t h; exact absurd h (by simp [runLoop])
  | cons t0 rest ih =>
    intro pd hinv pdw t h
    rcases hA : attemptRun (f t0) pd with ⟨pd2, err⟩
    cases err with
    | none =>
      rw [runLoop_cons_ok f t0 rest pd pd2 hA] at h
      simp only [Option.some.injEq, Prod.mk.injEq] at h
      obtain ⟨hpd, ht⟩ := h
      subst hpd; subst ht
      obtain ⟨e1, res, hv, hcore, hh, hshape⟩ :=
        attemptRun_success_shape (f t0) pd pd2 hinv hA
      refine ⟨List.mem_cons_self t0 rest, ?_, res, hv, hh, ?_, ?_⟩
      · intro v hv'
        obtain ⟨c, hc1, hc2, hc3⟩ := fetchCoreVars_success_lookup (f t0)
          CORE_VARS pd.entries (by decide) (by rw [hcore]) v hv'
        refine ⟨c, hc1, hc2, ?_⟩
        rw [hshape]
        have hvne : v ≠ "HUM" := by
          intro hEq; exact hum_not_core (hEq ▸ hv')
        simp only [dictInsert, dictLookup, if_neg hvne]
        rw [hcore] at hc3
        exact hc3
      · rw [hshape]
        simp [dictInsert, dictLookup]
      · rw [hshape]
    | some msg =>
      rw [runLoop_cons_fail f t0 rest pd pd2 msg hA] at h
      simp only at h
      have hinv2 : dictLookup pd2.entries "HUM" = none := by
        rw [attemptRun_fail_no_hum (f t0) pd pd2 msg hA]
        exact hinv
      obtain ⟨hmem, hcore, hhum⟩ := ih pd2 hinv2 pdw t h
      exact ⟨List.mem_cons_of_mem t0 hmem, hcore, hhum⟩

/-! ## Lemmas about the pressure sort -/

/-- Reading a list back through the index range recovers the list. -/
theorem map_getD_range (l : List ℚ) :
    (List.range l.length).map (fun i => l.getD i 0) = l := by
  induction l with
  | nil => rfl
  | cons a t ih =>
    rw [List.length_cons, List.range_succ_eq_map, List.map_cons, List.map_map]
    exact congrArg (List.cons a) ih

/-- `argsort` followed by reversal is a permutation of the index range. -/
theorem sortIndices_perm (p : List ℚ) :
    (sortIndices p).Perm (List.range p.length) := by
  unfold sortIndices argsortAsc
  exact (List.reverse_perm _).trans (List.perm_insertionSort _ _)

/-- The reindexed pressures are a permutation of the input pressures. -/
theorem applyPerm_sortIndices_perm (p : List ℚ) :
    (applyPerm (sortIndices p) p).Perm p := by
  unfold applyPerm
  have h1 := (sortIndices_perm p).map (fun i => p.getD i 0)
  rw [map_getD_range] at h1
  exact h1

/-- The reindexed pressure array is non-increasing. -/
theorem applyPerm_sortIndices_sorted (p : List ℚ) :
    List.Pairwise (· ≥ ·) (applyPerm (sortIndices p) p) := by
  unfold applyPerm sortIndices argsortAsc
  haveI : IsTotal Nat (fun i j => p.getD i 0 ≤ p.getD j 0) :=
    ⟨fun a b => le_total _ _⟩
  haveI : IsTrans Nat (fun i j => p.getD i 0 ≤ p.getD j 0) :=
    ⟨fun a b c hab hbc => le_trans hab hbc⟩
  have hs := List.sorted_insertionSort (fun i j => p.getD i 0 ≤ p.getD j 0)
    (List.range p.length)
  rw [List.map_reverse, List.pairwise_reverse, List.pairwise_map]
  exact hs.imp (fun h => h)

/-- With pairwise-distinct input pressures, the reindexed pressure array is
strictly decreasing. -/
theorem applyPerm_sortIndices_strict (p : List ℚ) (hnd : p.Nodup) :
    List.Pairwise (· > ·) (applyPerm (sortIndices p) p) := by
  have h1 := applyPerm_sortIndices_sorted p
  have h2 : (applyPerm (sortIndices p) p).Nodup :=
    ((applyPerm_sortIndices_perm p).nodup_iff).mpr hnd
  exact (List.Pairwise.and h1 h2).imp
    (fun h => lt_of_le_of_ne h.1 (Ne.symm h.2))

/-! ## Claim theorems -/

/-- C10: the minimum size floor for every fetched vertical column is exactly
5 levels — a fetched column is accepted iff it is non-`None` with at least 5
elements, a 5-level column passes, one with 4 or fewer fails, and both the
core-variable loop and the humidity loop gate on this very test. -/
theorem size_floor_five :
    (∀ res : Option Col, passesSizeFloor res = true ↔
      ∃ xs, res = some xs ∧ 5 ≤ xs.length) ∧
    (∀ xs : Col, xs.length = 5 → passesSizeFloor (some xs) = true) ∧
    (∀ xs : Col, xs.length ≤ 4 → passesSizeFloor (some xs) = false) ∧
    passesSizeFloor none = false ∧
    (∀ (f : String → Option Col) (v : String) (rest : List String) (d : Dict),
      fetchCoreVars f (v :: rest) d =
        if passesSizeFloor (f v) then
          fetchCoreVars f rest (dictInsert d v ((f v).getD []))
        else (d, some ("Empty " ++ v))) ∧
    (∀ (f : String → Option Col) (n : String) (rest : List String),
      fetchHumidity f (n :: rest) =
        if passesSizeFloor (f n) then some ((f n).getD [], n)
        else fetchHumidity f rest) := by
  refine ⟨?_, ?_, ?_, rfl, ?_, ?_⟩
  · intro res
    cases res with
    | none => simp [passesSizeFloor]
    | some xs => simp [passesSizeFloor]
  · intro xs h
    simp [passesSizeFloor, h]
  · intro xs h
    simp only [passesSizeFloor, decide_eq_false_iff_not]
    omega
  · intro f v rest d
    cases hf : f v with
    | none => simp [passesSizeFloor, fetchCoreVars_cons_none f v rest d hf]
    | some res =>
      by_cases hlen : 5 ≤ res.length
      · rw [fetchCoreVars_cons_ok f v rest d res hf hlen]
        simp [passesSizeFloor, hlen]
      · rw [fetchCoreVars_cons_small f v rest d res hf hlen]
        simp [passesSizeFloor, hlen]
  · intro f n rest
    cases hf : f n with
    | none => simp [passesSizeFloor, fetchHumidity_cons_none f n rest hf]
    | some res =>
      by_cases hlen : 5 ≤ res.length
      · rw [fetchHumidity_cons_ok f n rest res hf hlen]
        simp [passesSizeFloor, hlen]
      · rw [fetchHumidity_cons_small f n rest res hf hlen]
        simp [passesSizeFloor, hlen]

/-- Witness for C10 at concrete columns: exactly 5 levels pass, 4 fail. -/
theorem size_floor_five_witness :
    passesSizeFloor (some [0, 0, 0, 0, 0]) = true ∧
    passesSizeFloor (some [0, 0, 0, 0]) = false :=
  ⟨size_floor_five.2.1 [0, 0, 0, 0, 0] (by decide),
   size_floor_five.2.2.1 [0, 0, 0, 0] (by decide)⟩

/-- C9 (spec-modelled): height is geopotential divided by standard gravity
9.80665 m/s², elementwise and length-preserving, and the output is omitted
when no geopotential field is present; 9806.65 m²/s² of geopotential is
exactly 1000 m. -/
theorem height_from_geopotential_rule :
    (∀ xs : Col, heightFromGeopotential (some xs) =
      some (xs.map (· / (980665 / 100000)))) ∧
    heightFromGeopotential none = none ∧
    (∀ xs : Col, ∃ ys, heightFromGeopotential (some xs) = some ys ∧
      ys.length = xs.length) ∧
    heightFromGeopotential (some [980665 / 100]) = some [1000] := by
  refine ⟨fun xs => rfl, rfl, ?_, ?_⟩
  · intro xs
    exact ⟨xs.map (· / g0), rfl, by rw [List.length_map]⟩
  · show some ([(980665 : ℚ) / 100].map (· / g0)) = some [1000]
    norm_num [g0]

/-- C3: the humidity fetch walks `["RELHUM", "QV"]` in order — a passing
relative-humidity fetch wins and is tagged `RELHUM` without consulting `QV`;
when `RELHUM` fails (nothing returned or below the size floor) and `QV`
passes, the profile is tagged `QV`; when every name fails the fetch yields
nothing, and an attempt whose humidity fetch yields nothing raises (the run
is abandoned). -/
theorem humidity_fallback_order :
    (∀ (f : String → Option Col) (c : Col), f "RELHUM" = some c →
      5 ≤ c.length → fetchHumidity f humNames = some (c, "RELHUM")) ∧
    (∀ (f : String → Option Col) (c : Col), humFail (f "RELHUM") →
      f "QV" = some c → 5 ≤ c.length →
      fetchHumidity f humNames = some (c, "QV")) ∧
    (∀ f : String → Option Col, humFail (f "RELHUM") → humFail (f "QV") →
      fetchHumidity f humNames = none) ∧
    (∀ (f : String → Option Col) (pd : ProfileData),
      fetchHumidity f humNames = none → dictLookup pd.entries "HUM" = none →
      (attemptRun f pd).2.isSome = true) := by
  refine ⟨?_, ?_, ?_, ?_⟩
  · intro f c hf hlen
    exact fetchHumidity_cons_ok f "RELHUM" ["QV"] c hf hlen
  · intro f c hA hf hlen
    have h2 : fetchHumidity f ["QV"] = some (c, "QV") :=
      fetchHumidity_cons_ok f "QV" [] c hf hlen
    rcases hA with hA | ⟨cA, hcA, hlenA⟩
    · rw [show humNames = "RELHUM" :: ["QV"] from rfl,
        fetchHumidity_cons_none f "RELHUM" ["QV"] hA]
      exact h2
    · rw [show humNames = "RELHUM" :: ["QV"] from rfl,
        fetchHumidity_cons_small f "RELHUM" ["QV"] cA hcA (by omega)]
      exact h2
  · intro f hA hB
    have h2 : fetchHumidity f ["QV"] = none := by
      rcases hB with hB | ⟨cB, hcB, hlenB⟩
      · rw [fetchHumidity_cons_none f "QV" [] hB]; rfl
      · rw [fetchHumidity_cons_small f "QV" [] cB hcB (by omega)]; rfl
    rcases hA with hA | ⟨cA, hcA, hlenA⟩
    · rw [show humNames = "RELHUM" :: ["QV"] from rfl,
        fetchHumidity_cons_none f "RELHUM" ["QV"] hA]
      exact h2
    · rw [show humNames = "RELHUM" :: ["QV"] from rfl,
        fetchHumidity_cons_small f "RELHUM" ["QV"] cA hcA (by omega)]
      exact h2
  · intro f pd hh hinv
    rcases hcore : fetchCoreVars f CORE_VARS pd.entries with ⟨e1, err⟩
    cases err with
    | some msg => rw [attemptRun_eq_core_fail f pd e1 msg hcore]; rfl
    | none =>
      have he1 : dictLookup e1 "HUM" = none := by
        have := fetchCoreVars_lookup_not_mem f CORE_VARS pd.entries "HUM"
          hum_not_core
        rw [hcore] at this; exact this.trans hinv
      rw [attemptRun_eq_no_hum f pd e1 hcore hh he1]
      rfl

/-- Witness for C3: `RELHUM` returns an undersized column, `QV` a valid one;
the fetch reports the `QV` column tagged `QV`. -/
theorem humidity_fallback_order_witness :
    fetchHumidity c3fetch humNames = some ([1, 2, 3, 4, 5], "QV") :=
  humidity_fallback_order.2.1 c3fetch [1, 2, 3, 4, 5]
    (Or.inr ⟨[1, 2, 3], by decide, by decide⟩) (by decide) (by decide)

/-- C5: with tag `RELHUM` the dewpoint comes from temperature and the
humidity normalized from percent to a 0–1 fraction (division by 100);
with any other tag it comes from pressure, temperature and specific humidity
— exactly one branch runs, selected only by the tag; the derived stage reads
the tag stored in the profile, and that tag is exactly the one the winning
run's humidity fallback produced (never changed after being set). -/
theorem dewpoint_branch_selection :
    (∀ (dewRH : ℚ → ℚ → ℚ) (dewQ : ℚ → ℚ → ℚ → ℚ) (p t hum : List ℚ),
      computeDewpoint dewRH dewQ "RELHUM" p t hum =
        List.zipWith dewRH t (hum.map (· / 100))) ∧
    (∀ (dewRH : ℚ → ℚ → ℚ) (dewQ : ℚ → ℚ → ℚ → ℚ) (tag : String)
      (p t hum : List ℚ), tag ≠ "RELHUM" →
      computeDewpoint dewRH dewQ tag p t hum = zipWith3 dewQ p t hum) ∧
    (∀ (dewRH : ℚ → ℚ → ℚ) (dewQ : ℚ → ℚ → ℚ → ℚ) (mag : ℚ → ℚ → ℚ)
      (pd : ProfileData) (d : Derived),
      deriveStage dewRH dewQ mag pd = some d →
      ∃ p t u v hum tag, dictLookup pd.entries "P" = some p ∧
        dictLookup pd.entries "T" = some t ∧
        dictLookup pd.entries "U" = some u ∧
        dictLookup pd.entries "V" = some v ∧
        dictLookup pd.entries "HUM" = some hum ∧ pd.humType = some tag ∧
        d.td = computeDewpoint dewRH dewQ tag p t hum) ∧
    (∀ (f : RunTime → String → Option Col) (cs : List RunTime)
      (pdw : ProfileData) (t : RunTime),
      (runLoop f cs ⟨[], none⟩).outcome = some (pdw, t) →
      ∃ res hv, fetchHumidity (f t) humNames = some (res, hv) ∧
        pdw.humType = some hv) := by
  refine ⟨?_, ?_, ?_, ?_⟩
  · intro dewRH dewQ p t hum
    simp [computeDewpoint]
  · intro dewRH dewQ tag p t hum htag
    simp [computeDewpoint, htag]
  · intro dewRH dewQ mag pd d h
    unfold deriveStage at h
    rcases hP : dictLookup pd.entries "P" with _ | p
    · rw [hP] at h; exact absurd h (by simp)
    rcases hT : dictLookup pd.entries "T" with _ | t
    · rw [hP, hT] at h; exact absurd h (by simp)
    rcases hU : dictLookup pd.entries "U" with _ | u
    · rw [hP, hT, hU] at h; exact absurd h (by simp)
    rcases hV : dictLookup pd.entries "V" with _ | v
    · rw [hP, hT, hU, hV] at h; exact absurd h (by simp)
    rcases hH : dictLookup pd.entries "HUM" with _ | hum
    · rw [hP, hT, hU, hV, hH] at h; exact absurd h (by simp)
    rcases hG : pd.humType with _ | tag
    · rw [hP, hT, hU, hV, hH, hG] at h; exact absurd h (by simp)
    rw [hP, hT, hU, hV, hH, hG] at h
    simp only [Option.some.injEq] at h
    exact ⟨p, t, u, v, hum, tag, rfl, rfl, rfl, rfl, rfl, rfl,
      by rw [← h]⟩
  · intro f cs pdw t h
    obtain ⟨_, _, res, hv, hh, _, htag⟩ :=
      runLoop_success_provenance f cs ⟨[], none⟩ rfl pdw t h
    exact ⟨res, hv, hh, htag⟩

/-- Witness for C5: the `RELHUM` branch divides by 100, a non-`RELHUM` tag
selects the specific-humidity formula. -/
theorem dewpoint_branch_selection_witness :
    computeDewpoint dewRHtest dewQtest "RELHUM" [] [288] [50] =
      List.zipWith dewRHtest [288] ([50].map (· / 100)) ∧
    computeDewpoint dewRHtest dewQtest "QV" [1] [2] [3] =
      zipWith3 dewQtest [1] [2] [3] :=
  ⟨dewpoint_branch_selection.1 dewRHtest dewQtest [] [288] [50],
   dewpoint_branch_selection.2.1 dewRHtest dewQtest "QV" [1] [2] [3]
     (by decide)⟩

/-- C2: line 105 applies to all six arrays the single permutation
`p.argsort()[::-1]` computed from pressure alone; the result is a permutation
of the index range, the output pressures are non-increasing (strictly
decreasing when the input pressures are pairwise distinct) and a permutation
of the input pressures; on the spec's scenario pressures
`[70000, 30000, 100000, 50000, 85000]` the output is
`[100000, 85000, 70000, 50000, 30000]` with the co-array reordered by the
same permutation. -/
theorem pressure_sort_shared_permutation (p t td u v ws : List ℚ) :
    (sortIndices p).Perm (List.range p.length) ∧
    List.Pairwise (· ≥ ·) (sortByPressure p t td u v ws).p ∧
    (p.Nodup → List.Pairwise (· > ·) (sortByPressure p t td u v ws).p) ∧
    (sortByPressure p t td u v ws).p.Perm p ∧
    sortByPressure p t td u v ws =
      ⟨applyPerm (sortIndices p) p, applyPerm (sortIndices p) t,
       applyPerm (sortIndices p) td, applyPerm (sortIndices p) u,
       applyPerm (sortIndices p) v, applyPerm (sortIndices p) ws⟩ ∧
    (sortByPressure [70000, 30000, 100000, 50000, 85000]
        [0, 1, 2, 3, 4] [] [] [] []).p = [100000, 85000, 70000, 50000, 30000] ∧
    (sortByPressure [70000, 30000, 100000, 50000, 85000]
        [0, 1, 2, 3, 4] [] [] [] []).t = [2, 4, 0, 3, 1] :=
  ⟨sortIndices_perm p, applyPerm_sortIndices_sorted p,
   fun h => applyPerm_sortIndices_strict p h,
   applyPerm_sortIndices_perm p, rfl, by decide, by decide⟩

/-- Witness for C2: on the scenario input (pairwise-distinct pressures) the
output pressure array is strictly decreasing. -/
theorem pressure_sort_shared_permutation_witness :
    List.Pairwise (· > ·)
      (sortByPressure [70000, 30000, 100000, 50000, 85000]
        [0, 1, 2, 3, 4] [] [] [] []).p :=
  (pressure_sort_shared_permutation [70000, 30000, 100000, 50000, 85000]
    [0, 1, 2, 3, 4] [] [] [] []).2.2.1 (by decide)

/-- C4: the candidate reference times are consumed most recent first; the
loop stops at the first candidate whose attempt succeeds, returning that
run's profile and reference time, having attempted exactly the candidates up
to and including the winner (none after it, none twice). -/
theorem run_selection_stops_at_first_success :
    (∀ latest : RunTime, List.Pairwise (· > ·) (timesToTry latest)) ∧
    (∀ (f : RunTime → String → Option Col) (cs : List RunTime) (k : Nat),
      k < cs.length →
      (∀ i, i < k → attemptOK (f (cs.getD i 0)) = false) →
      attemptOK (f (cs.getD k 0)) = true →
      ∃ pdw, mainSelect f cs = .ok (pdw, cs.getD k 0) ∧
        (runLoop f cs ⟨[], none⟩).attempted = cs.take (k + 1) ∧
        (cs.Nodup → (runLoop f cs ⟨[], none⟩).attempted.Nodup)) := by
  constructor
  · intro latest
    have h4 : timesToTry latest = [latest, latest - 3, latest - 6, latest - 9] := by
      unfold timesToTry
      rw [(by decide : List.range 4 = [0, 1, 2, 3])]
      norm_num
    rw [h4]
    refine List.Pairwise.cons ?_ (List.Pairwise.cons ?_ (List.Pairwise.cons ?_
      (List.Pairwise.cons ?_ List.Pairwise.nil))) <;>
      (intro b hb; fin_cases hb <;> linarith)
  · intro f cs k hk hfail hok
    obtain ⟨⟨pdw, h1⟩, h2, _⟩ :=
      runLoop_first_success f cs ⟨[], none⟩ k rfl hk hfail hok
    refine ⟨pdw, ?_, h2, ?_⟩
    · unfold mainSelect
      rw [h1]
    · intro hnd
      rw [h2]
      exact hnd.sublist (List.take_sublist (k + 1) cs)

/-- Witness for C4 — three candidates of which only the last (index
`N - 1 = 2`) is complete: its profile and reference time are returned, all
three candidates were attempted, none twice. -/
theorem run_selection_stops_at_first_success_witness :
    ∃ pdw, mainSelect c4fetch [0, -3, -6] =
        .ok (pdw, ([0, -3, -6] : List RunTime).getD 2 0) ∧
      (runLoop c4fetch [0, -3, -6] ⟨[], none⟩).attempted =
        ([0, -3, -6] : List RunTime).take 3 ∧
      (([0, -3, -6] : List RunTime).Nodup →
        (runLoop c4fetch [0, -3, -6] ⟨[], none⟩).attempted.Nodup) :=
  run_selection_stops_at_first_success.2 c4fetch [0, -3, -6] 2
    (by decide) (by decide) (by decide)

/-- C6: when every candidate is abandoned, the selection stage ends in its
only fatal outcome, carrying exactly one failure entry per attempted
candidate, in order, each recording that candidate's failure reason. -/
theorem exhaustion_reports_all_failures :
    ∀ (f : RunTime → String → Option Col) (cs : List RunTime),
      (∀ c ∈ cs, attemptOK (f c) = false) →
      mainSelect f cs = .error (cs.map fun c => (c, failMsg (f c))) ∧
      (cs.map fun c => (c, failMsg (f c))).length = cs.length ∧
      ∀ L, mainSelect f cs = .error L → L.length = cs.length ∧
        L.map Prod.fst = cs := by
  intro f cs hall
  obtain ⟨h1, h2, _⟩ := runLoop_all_fail f cs ⟨[], none⟩ rfl hall
  have hmain : mainSelect f cs = .error (cs.map fun c => (c, failMsg (f c))) := by
    unfold mainSelect
    rw [h1, h2]
  refine ⟨hmain, by rw [List.length_map], ?_⟩
  intro L hL
  rw [hmain] at hL
  simp only [Except.error.injEq] at hL
  subst hL
  constructor
  · rw [List.length_map]
  · have hc : (Prod.fst ∘ fun c => (c, failMsg (f c))) = id := rfl
    rw [List.map_map, hc, List.map_id]

/-- Witness for C6: three candidates, every fetch returns nothing; the fatal
outcome carries three entries, one per candidate, each `Empty T`. -/
theorem exhaustion_reports_all_failures_witness :
    mainSelect (fun _ _ => none) [0, -3, -6] =
      .error (([0, -3, -6] : List RunTime).map
        fun c => (c, failMsg ((fun _ _ => none) c))) ∧
    (([0, -3, -6] : List RunTime).map
      fun c => (c, failMsg ((fun _ _ => none) c))).length =
        ([0, -3, -6] : List RunTime).length ∧
    ∀ L, mainSelect (fun _ _ => none) [0, -3, -6] = .error L →
      L.length = ([0, -3, -6] : List RunTime).length ∧
      L.map Prod.fst = [0, -3, -6] :=
  exhaustion_reports_all_failures (fun _ _ => none) [0, -3, -6] (by decide)

/-- C7 counterexample: run 0 fetches a valid `T` column and then fails on
`U`; the attempt raises `Empty U`, yet the working dict it hands to the next
candidate still binds `T` to the column fetched during the failed attempt —
and after the second candidate also fails, the shared dict still carries it.
Partial results of a failed attempt are retained, not discarded. -/
theorem failed_attempt_retains_partial_data :
    (attemptRun (leakFetch 0) ⟨[], none⟩).2 = some "Empty U" ∧
    dictLookup (attemptRun (leakFetch 0) ⟨[], none⟩).1.entries "T" =
      some [1, 2, 3, 4, 5] ∧
    (runLoop leakFetch [0, -3] ⟨[], none⟩).outcome = none ∧
    dictLookup (runLoop leakFetch [0, -3] ⟨[], none⟩).final.entries "T" =
      some [1, 2, 3, 4, 5] := by
  refine ⟨?_, ?_, ?_, ?_⟩ <;> decide

/-- C7 amended: the working dict is threaded across attempts and a failed
attempt's partial fetches are retained in it, but a successful attempt
re-fetches and overwrites every core variable and writes a fresh humidity
entry, so every value in the returned profile comes from the winning
candidate's own fetches. -/
theorem winning_run_overwrites_all_variables :
    ∀ (f : RunTime → String → Option Col) (cs : List RunTime)
      (pdw : ProfileData) (t : RunTime),
      (runLoop f cs ⟨[], none⟩).outcome = some (pdw, t) →
      t ∈ cs ∧
      (∀ v ∈ CORE_VARS, ∃ c, f t v = some c ∧ 5 ≤ c.length ∧
        dictLookup pdw.entries v = some c) ∧
      ∃ res hv, fetchHumidity (f t) humNames = some (res, hv) ∧
        dictLookup pdw.entries "HUM" = some res ∧ pdw.humType = some hv :=
  fun f cs pdw t h => runLoop_success_provenance f cs ⟨[], none⟩ rfl pdw t h

/-- Witness for the amended C7 at a concrete all-succeeding fetch. -/
theorem winning_run_overwrites_all_variables_witness :
    (0 : RunTime) ∈ ([0] : List RunTime) ∧
    (∀ v ∈ CORE_VARS, ∃ c, allOkFetch 0 v = some c ∧ 5 ≤ c.length ∧
      dictLookup allOkDict.entries v = some c) ∧
    ∃ res hv, fetchHumidity (allOkFetch 0) humNames = some (res, hv) ∧
      dictLookup allOkDict.entries "HUM" = some res ∧
      allOkDict.humType = some hv :=
  winning_run_overwrites_all_variables allOkFetch [0] allOkDict 0 (by decide)

/-- C8 counterexample: on a profile whose pressures and temperatures are all
negative absolute values, the derived-quantity stage computes a result (and
the relative-humidity dewpoint formula is evaluated on those invalid inputs,
yielding values) instead of failing before formula evaluation. -/
theorem derive_stage_computes_on_invalid_input :
    (deriveStage dewRHtest dewQtest magTest invalidProfile).isSome = true ∧
    computeDewpoint dewRHtest dewQtest "RELHUM"
        [-100000, -90000, -80000, -70000, -60000] [-5, -4, -3, -2, -1]
        [50, 50, 50, 50, 50] =
      [-9 / 2, -7 / 2, -5 / 2, -3 / 2, -1 / 2] := by
  constructor
  · decide
  · norm_num [computeDewpoint, dewRHtest]

/-- C8 amended: the derived-quantity stage performs no physical-range
validation at all — whenever the assembled profile provides the required
fields, it computes, whatever the values. -/
theorem derive_stage_never_fails :
    ∀ (dewRH : ℚ → ℚ → ℚ) (dewQ : ℚ → ℚ → ℚ → ℚ) (mag : ℚ → ℚ → ℚ)
      (pd : ProfileData) (p t u v hum : Col) (tag : String),
      dictLookup pd.entries "P" = some p →
      dictLookup pd.entries "T" = some t →
      dictLookup pd.entries "U" = some u →
      dictLookup pd.entries "V" = some v →
      dictLookup pd.entries "HUM" = some hum →
      pd.humType = some tag →
      (deriveStage dewRH dewQ mag pd).isSome = true := by
  intro dewRH dewQ mag pd p t u v hum tag hP hT hU hV hH htag
  unfold deriveStage
  rw [hP, hT, hU, hV, hH, htag]
  rfl

/-- Witness for the amended C8 at the invalid-valued profile. -/
theorem derive_stage_never_fails_witness :
    (deriveStage dewRHtest dewQtest magTest invalidProfile).isSome = true :=
  derive_stage_never_fails dewRHtest dewQtest magTest invalidProfile
    [-100000, -90000, -80000, -70000, -60000] [-5, -4, -3, -2, -1]
    [1, 1, 1, 1, 1] [2, 2, 2, 2, 2] [50, 50, 50, 50, 50] "RELHUM"
    (by decide) (by decide) (by decide) (by decide) (by decide) (by decide)

/-- C1, evaluated at the failing input: on a regular grid with latitude axis
`[0, 10]` and longitude axis `[0, 10, 20]`, target `(0, 10)`, the brute-force
nearest index over the row-major flattened points is 1 and the full vertical
column there is `[1]`; but `get_nearest_profile` applies the flattened index
to the latitude axis alone and returns the entire second latitude row (a
3-column slab), not that column. At target `(10, 20)` the brute-force index
is 5, which is out of range for the latitude axis, so the call fails
entirely. On the same six points laid out as an unstructured cell list the
function does return the brute-force column. -/
theorem grid_locator_regular_extraction_bug :
    IsBruteMin ((distGrid [0, 10] [0, 10, 20] 0 10).flatten) 1 ∧
    (([[[0], [1], [2]], [[10], [11], [12]]] : List (List Col)).flatten).get? 1 =
      some [1] ∧
    get_nearest_profile (some regDemoField) 0 10 =
      some (.slab [[10], [11], [12]]) ∧
    some (Extract.slab [[10], [11], [12]]) ≠ some (Extract.column [1]) ∧
    IsBruteMin ((distGrid [0, 10] [0, 10, 20] 10 20).flatten) 5 ∧
    get_nearest_profile (some regDemoField) 10 20 = none ∧
    IsBruteMin (distList [0, 0, 0, 10, 10, 10] [0, 10, 20, 0, 10, 20] 0 10) 1 ∧
    get_nearest_profile (some icoDemoField) 0 10 = some (.column [1]) := by
  have hd1 : distGrid [0, 10] [0, 10, 20] 0 10 =
      [[100, 0, 100], [200, 100, 200]] := by
    norm_num [distGrid]
  have hd2 : distGrid [0, 10] [0, 10, 20] 10 20 =
      [[500, 200, 100], [400, 100, 0]] := by
    norm_num [distGrid]
  have hd3 : distList [0, 0, 0, 10, 10, 10] [0, 10, 20, 0, 10, 20] 0 10 =
      [100, 0, 100, 200, 100, 200] := by
    norm_num [distList]
  refine ⟨?_, by decide, ?_, by decide, ?_, ?_, ?_, ?_⟩
  · rw [hd1]; decide
  · simp only [get_nearest_profile, regDemoField]
    rw [hd1]
    decide
  · rw [hd2]; decide
  · simp only [get_nearest_profile, regDemoField]
    rw [hd2]
    decide
  · rw [hd3]; decide
  · simp only [get_nearest_profile, icoDemoField]
    rw [hd3]
    decide

end SkewT

